import Mathlib

/-!
# A shallow embedding of the `snes_emu` CPU core

This file embeds the fetch–decode–execute core of the `snes_emu`
repository (files `src/cpu.rs`, `src/opcode.rs`, `src/main.rs`) into
Lean and proves properties of the embedded definitions.

Conventions of the embedding:

* Machine integers (`u8`, `u16`) are `Nat`; wrapping arithmetic
  (`wrapping_add`, release-mode `+`) is explicit `% 256` / `% 65536`.
* Rust panics (out-of-bounds indexing, `unwrap` of `None`,
  `todo!`) are `none` in an `Option`-valued result.
* The memory array is modelled as a total function `Nat → Nat`
  together with the bound `MEM_SIZE`: the Rust array is
  `memory: [u8; 0xFFFF]`, so an index is in bounds iff it is
  `< 0xFFFF` (65535 — one byte short of the full 16-bit space).
* The struct `CPU` and the functions `new`, `reset`, `set_flags`,
  `mem_read`, `mem_write`, `mem_read_u16`, `mem_write_u16`, `load`
  are textually identical in `src/cpu.rs` and `src/main.rs`; they are
  defined once here and shared by the embeddings of both files.
-/

/-- Length of the Rust array `memory: [u8; 0xFFFF]` (both files declare it
with this length). -/
def MEM_SIZE : Nat := 0xFFFF

/-- The CPU state of `src/cpu.rs` / `src/main.rs`: 16-bit program counter,
three 8-bit registers, 8-bit status byte, and the memory array (modelled
as a total function; only indices `< MEM_SIZE` are in bounds). -/
structure CPU where
  program_counter : Nat
  register_a : Nat
  register_x : Nat
  register_y : Nat
  status : Nat
  memory : Nat → Nat

attribute [ext] CPU

/-- Rust `AddressingMode` from `src/cpu.rs`. -/
inductive AddressingMode where
  | Accumulator
  | Immediate
  | ZeroPage
  | ZeroPage_X
  | ZeroPage_Y
  | Relative
  | Absolute
  | Absolute_X
  | Absolute_Y
  | Indirect
  | Indirect_X
  | Indirect_Y
  | Implied
deriving DecidableEq

/-- Rust `CPU::new()`: zeroed registers, flags and memory. -/
def CPU.new : CPU :=
  { program_counter := 0
    register_a := 0
    register_x := 0
    register_y := 0
    status := 0
    memory := fun _ => 0 }

/-- Rust `CPU::mem_read`: `self.memory[addr as usize]`.  Indexing the
`[u8; 0xFFFF]` array panics (here: `none`) when `addr ≥ MEM_SIZE`. -/
def CPU.mem_read (c : CPU) (addr : Nat) : Option Nat :=
  if addr < MEM_SIZE then some (c.memory addr) else none

/-- Rust `CPU::mem_write`: `self.memory[addr as usize] = data`. -/
def CPU.mem_write (c : CPU) (addr data : Nat) : Option CPU :=
  if addr < MEM_SIZE then
    some { c with memory := fun i => if i = addr then data else c.memory i }
  else none

/-- Rust `CPU::mem_read_u16`: little-endian word from `addr` and `addr+1`.
The Rust `addr+1` is a `u16` addition, modelled wrapping (`% 65536`). -/
def CPU.mem_read_u16 (c : CPU) (addr : Nat) : Option Nat :=
  match c.mem_read addr with
  | none => none
  | some lo =>
    match c.mem_read ((addr + 1) % 65536) with
    | none => none
    | some hi => some (lo + 256 * hi)

/-- Rust `CPU::mem_write_u16`: `data.to_le_bytes()` gives low byte
`data % 256` and high byte `data / 256 % 256`, written at `addr` and
`addr+1` (wrapping `u16` addition). -/
def CPU.mem_write_u16 (c : CPU) (addr data : Nat) : Option CPU :=
  match c.mem_write addr (data % 256) with
  | none => none
  | some c1 => c1.mem_write ((addr + 1) % 65536) (data / 256 % 256)

/-- The status-byte part of `CPU::set_flags`: set/clear bit 1 according
to `operation_result == 0`, then set/clear bit 7 according to bit 7 of
`operation_result`. -/
def setFlagsByte (status v : Nat) : Nat :=
  let s := if v = 0 then status ||| 0b00000010 else status &&& 0b11111101
  if v &&& 0b10000000 ≠ 0 then s ||| 0b10000000 else s &&& 0b01111111

/-- Rust `CPU::set_flags` (identical in both files). -/
def CPU.set_flags (c : CPU) (v : Nat) : CPU :=
  { c with status := setFlagsByte c.status v }

/-- Rust `CPU::reset` (identical in both files): zero `a`, `x`, `status`,
then load the program counter from the little-endian word at `0xFFFC`.
`register_y` and the memory are not touched. -/
def CPU.reset (c : CPU) : Option CPU :=
  match c.mem_read_u16 0xFFFC with
  | none => none
  | some pc =>
    some { c with register_a := 0, register_x := 0, status := 0, program_counter := pc }

/-- Rust `CPU::load` (identical in both files):
`self.memory[0x8000 .. 0x8000 + program.len()].copy_from_slice(..)`,
then `mem_write_u16(0xFFFC, 0x8000)`.  Slicing the `[u8; 0xFFFF]`
array panics (here: `none`) when `0x8000 + program.len() > MEM_SIZE`. -/
def CPU.load (c : CPU) (program : List Nat) : Option CPU :=
  if 0x8000 + program.length ≤ MEM_SIZE then
    let c1 : CPU :=
      { c with memory := fun i =>
          if 0x8000 ≤ i ∧ i < 0x8000 + program.length
          then program.getD (i - 0x8000) 0 else c.memory i }
    c1.mem_write_u16 0xFFFC 0x8000
  else none

/-- Rust `CPU::get_address` from `src/cpu.rs`.  Returns the state with the
program counter advanced (a `u16` `+=`, modelled wrapping) together with
the optional effective address; `none` models a panic (an out-of-bounds
memory access, or the `todo!("finish")` arm reached by `Accumulator`). -/
def CPU.get_address (c : CPU) (addressing_mode : AddressingMode) :
    Option (CPU × Option Nat) :=
  match addressing_mode with
  | .Implied => some (c, none)
  | .Immediate =>
      some ({ c with program_counter := (c.program_counter + 1) % 65536 },
            some c.program_counter)
  | .ZeroPage =>
      match c.mem_read c.program_counter with
      | none => none
      | some b =>
        some ({ c with program_counter := (c.program_counter + 1) % 65536 }, some b)
  | .ZeroPage_X =>
      match c.mem_read c.program_counter with
      | none => none
      | some b =>
        some ({ c with program_counter := (c.program_counter + 1) % 65536 },
              some ((b + c.register_x) % 256))
  | .ZeroPage_Y =>
      match c.mem_read c.program_counter with
      | none => none
      | some b =>
        some ({ c with program_counter := (c.program_counter + 1) % 65536 },
              some ((b + c.register_y) % 256))
  | .Relative =>
      match c.mem_read c.program_counter with
      | none => none
      | some b =>
        some ({ c with program_counter := (c.program_counter + 1) % 65536 },
              some ((c.program_counter + b) % 65536))
  | .Absolute =>
      match c.mem_read_u16 c.program_counter with
      | none => none
      | some w =>
        some ({ c with program_counter := (c.program_counter + 2) % 65536 }, some w)
  | .Absolute_X =>
      match c.mem_read_u16 c.program_counter with
      | none => none
      | some w =>
        some ({ c with program_counter := (c.program_counter + 2) % 65536 },
              some ((w + c.register_x) % 65536))
  | .Absolute_Y =>
      match c.mem_read_u16 c.program_counter with
      | none => none
      | some w =>
        some ({ c with program_counter := (c.program_counter + 2) % 65536 },
              some ((w + c.register_y) % 65536))
  | .Indirect =>
      match c.mem_read_u16 c.program_counter with
      | none => none
      | some addr =>
        match c.mem_read_u16 addr with
        | none => none
        | some w =>
          some ({ c with program_counter := (c.program_counter + 2) % 65536 }, some w)
  | .Indirect_X =>
      match c.mem_read c.program_counter with
      | none => none
      | some b =>
        match c.mem_read_u16 ((b + c.register_x) % 256) with
        | none => none
        | some w =>
          some ({ c with program_counter := (c.program_counter + 1) % 65536 }, some w)
  | .Indirect_Y =>
      match c.mem_read c.program_counter with
      | none => none
      | some b =>
        match c.mem_read_u16 b with
        | none => none
        | some w =>
          some ({ c with program_counter := (c.program_counter + 1) % 65536 },
                some ((w + c.register_y) % 65536))
  | .Accumulator => none

/-- Instruction-stream byte count per addressing mode, as consumed by
`CPU::get_address` (spec §4.2's "counter advance" column). -/
def AddressingMode.byteCount : AddressingMode → Nat
  | .Implied => 0
  | .Accumulator => 0
  | .Immediate => 1
  | .ZeroPage => 1
  | .ZeroPage_X => 1
  | .ZeroPage_Y => 1
  | .Relative => 1
  | .Indirect_X => 1
  | .Indirect_Y => 1
  | .Absolute => 2
  | .Absolute_X => 2
  | .Absolute_Y => 2
  | .Indirect => 2

/-- Rust `CPU::lda` from `src/cpu.rs` (`get_address(..).unwrap()`, read,
assign to `register_a`, `set_flags(register_a)`). -/
def CPU.lda (c : CPU) (addressing_mode : AddressingMode) : Option CPU :=
  match c.get_address addressing_mode with
  | none => none
  | some (_, none) => none
  | some (c1, some addr) =>
    match c1.mem_read addr with
    | none => none
    | some v =>
      let c2 := { c1 with register_a := v }
      some (c2.set_flags c2.register_a)

/-- Rust `CPU::ldx` from `src/cpu.rs`. -/
def CPU.ldx (c : CPU) (addressing_mode : AddressingMode) : Option CPU :=
  match c.get_address addressing_mode with
  | none => none
  | some (_, none) => none
  | some (c1, some addr) =>
    match c1.mem_read addr with
    | none => none
    | some v =>
      let c2 := { c1 with register_x := v }
      some (c2.set_flags c2.register_x)

/-- Rust `CPU::ldy` from `src/cpu.rs`. -/
def CPU.ldy (c : CPU) (addressing_mode : AddressingMode) : Option CPU :=
  match c.get_address addressing_mode with
  | none => none
  | some (_, none) => none
  | some (c1, some addr) =>
    match c1.mem_read addr with
    | none => none
    | some v =>
      let c2 := { c1 with register_y := v }
      some (c2.set_flags c2.register_y)

/-- Rust `CPU::sta` from `src/cpu.rs`: write `register_a` at the resolved
address, then `set_flags(register_a)`. -/
def CPU.sta (c : CPU) (addressing_mode : AddressingMode) : Option CPU :=
  match c.get_address addressing_mode with
  | none => none
  | some (_, none) => none
  | some (c1, some addr) =>
    match c1.mem_write addr c1.register_a with
    | none => none
    | some c2 => some (c2.set_flags c2.register_a)

/-- Rust `CPU::tax` from `src/cpu.rs`. -/
def CPU.tax (c : CPU) : CPU :=
  let c1 := { c with register_x := c.register_a }
  c1.set_flags c1.register_x

/-- Rust `CPU::inx` from `src/cpu.rs` (`wrapping_add(1)` on a `u8`). -/
def CPU.inx (c : CPU) : CPU :=
  let c1 := { c with register_x := (c.register_x + 1) % 256 }
  c1.set_flags c1.register_x

/-- Rust `CpuMnemonic` from `src/opcode.rs`. -/
inductive CpuMnemonic where
  | BRK
  | LDA
  | LDX
  | LDY
  | TAX
  | INX
  | STA
deriving DecidableEq

/-- Rust `Opcode` from `src/opcode.rs`. -/
structure Opcode where
  hex : Nat
  mnemonic : CpuMnemonic
  cycles : Nat
  addressing : AddressingMode
deriving DecidableEq

/-- Rust `CPU_OPS_CODES` from `src/opcode.rs`, row for row. -/
def CPU_OPS_CODES : List Opcode :=
  [ ⟨0x00, .BRK, 7, .Implied⟩,

    ⟨0xA9, .LDA, 2, .Immediate⟩,
    ⟨0xA5, .LDA, 3, .ZeroPage⟩,
    ⟨0xB5, .LDA, 4, .ZeroPage_X⟩,
    ⟨0xAD, .LDA, 4, .Absolute⟩,
    ⟨0xBD, .LDA, 4, .Absolute_X⟩,
    ⟨0xB9, .LDA, 4, .Absolute_Y⟩,
    ⟨0xA1, .LDA, 6, .Indirect_X⟩,
    ⟨0xB1, .LDA, 5, .Indirect_Y⟩,

    ⟨0xA2, .LDX, 2, .Immediate⟩,
    ⟨0xA6, .LDX, 3, .ZeroPage⟩,
    ⟨0xB6, .LDX, 4, .ZeroPage_Y⟩,
    ⟨0xAE, .LDX, 4, .Absolute⟩,
    ⟨0xBE, .LDX, 4, .Absolute_Y⟩,

    ⟨0xA0, .LDY, 2, .Immediate⟩,
    ⟨0xA4, .LDY, 3, .ZeroPage⟩,
    ⟨0xB4, .LDY, 4, .ZeroPage_X⟩,
    ⟨0xAC, .LDY, 4, .Absolute⟩,
    ⟨0xBC, .LDY, 4, .Absolute_X⟩,

    ⟨0xAA, .TAX, 2, .Implied⟩,
    ⟨0xE8, .INX, 2, .Implied⟩,

    ⟨0x85, .STA, 3, .ZeroPage⟩,
    ⟨0x95, .STA, 4, .ZeroPage_X⟩,
    ⟨0x8D, .STA, 4, .Absolute⟩,
    ⟨0x9D, .STA, 5, .Absolute_X⟩,
    ⟨0x99, .STA, 5, .Absolute_Y⟩,
    ⟨0x81, .STA, 6, .Indirect_X⟩,
    ⟨0x91, .STA, 6, .Indirect_Y⟩ ]

/-- Rust `OPCODES_MAP` from `src/opcode.rs`: the byte-keyed lookup built from
`CPU_OPS_CODES`.  The hex keys of the rows are pairwise distinct, so the
first-match `List.find?` agrees with the `HashMap` built by inserting
every row. -/
def OPCODES_MAP (code : Nat) : Option Opcode :=
  CPU_OPS_CODES.find? (fun o => o.hex == code)

/-- Result of one iteration of a `run` loop body. -/
inductive StepResult where
  | halted (c : CPU)
  | next (c : CPU)
  | decodeFault (c : CPU) (code : Nat)
  | fault (c : CPU)

/-- Outcome of a bounded `run`. -/
inductive RunOutcome where
  | halted (c : CPU)
  | decodeFault (c : CPU) (code : Nat)
  | fault (c : CPU)
  | outOfFuel (c : CPU)

/-- One iteration of the `loop` body of `CPU::run` in `src/cpu.rs`:
fetch the byte at the program counter, advance the counter by 1
(a `u16` `+=`, modelled wrapping), look the byte up in `OPCODES_MAP`,
and dispatch on the mnemonic.  A missing catalog entry is the
`todo!("Implement more opcodes!")` panic, modelled as `decodeFault`;
`fault` models a panic inside a handler. -/
def CPU.step (c : CPU) : StepResult :=
  match c.mem_read c.program_counter with
  | none => .fault c
  | some code =>
    let c1 := { c with program_counter := (c.program_counter + 1) % 65536 }
    match OPCODES_MAP code with
    | none => .decodeFault c1 code
    | some opcode =>
      match opcode.mnemonic with
      | .LDA => match c1.lda opcode.addressing with
                | some c2 => .next c2
                | none => .fault c1
      | .LDX => match c1.ldx opcode.addressing with
                | some c2 => .next c2
                | none => .fault c1
      | .LDY => match c1.ldy opcode.addressing with
                | some c2 => .next c2
                | none => .fault c1
      | .STA => match c1.sta opcode.addressing with
                | some c2 => .next c2
                | none => .fault c1
      | .TAX => .next c1.tax
      | .INX => .next c1.inx
      | .BRK => .halted c1

/-- Rust `CPU::run` from `src/cpu.rs`, with an explicit fuel bound on the
number of loop iterations (the Rust loop has no built-in bound;
spec §5 leaves the step limit to the caller). -/
def CPU.run : Nat → CPU → RunOutcome
  | 0, c => .outOfFuel c
  | fuel + 1, c =>
    match c.step with
    | .halted c1 => .halted c1
    | .next c1 => CPU.run fuel c1
    | .decodeFault c1 code => .decodeFault c1 code
    | .fault c1 => .fault c1

/-- Rust `CPU::load_and_run` from `src/cpu.rs`: `load`, `reset`, `run`. -/
def CPU.load_and_run (fuel : Nat) (c : CPU) (program : List Nat) : RunOutcome :=
  match c.load program with
  | none => .fault c
  | some c1 =>
    match c1.reset with
    | none => .fault c1
    | some c2 => CPU.run fuel c2

namespace MainRs

/-- Rust `CPU::run` from `src/main.rs` (the hardcoded-dispatch variant), with
the same explicit fuel bound.  Opcodes `0xA9`, `0xAA`, `0xE8`, `0x00`
are matched directly; any other byte is the
`todo!("Implement more opcodes!")` panic. -/
def run : Nat → CPU → RunOutcome
  | 0, c => .outOfFuel c
  | fuel + 1, c =>
    match c.mem_read c.program_counter with
    | none => .fault c
    | some code =>
      let c1 := { c with program_counter := (c.program_counter + 1) % 65536 }
      if code = 0xA9 then
        match c1.mem_read c1.program_counter with
        | none => .fault c1
        | some v =>
          let c2 := { c1 with register_a := v,
                              program_counter := (c1.program_counter + 1) % 65536 }
          run fuel (c2.set_flags c2.register_a)
      else if code = 0xAA then
        let c2 := { c1 with register_x := c1.register_a }
        run fuel (c2.set_flags c2.register_x)
      else if code = 0xE8 then
        let c2 := { c1 with register_x := (c1.register_x + 1) % 256 }
        run fuel (c2.set_flags c2.register_x)
      else if code = 0x00 then .halted c1
      else .decodeFault c1 code

/-- Rust `CPU::load_and_run` from `src/main.rs`: `load`, `reset`, `run`
(`load` and `reset` are identical to the ones of `src/cpu.rs`). -/
def load_and_run (fuel : Nat) (c : CPU) (program : List Nat) : RunOutcome :=
  match c.load program with
  | none => .fault c
  | some c1 =>
    match c1.reset with
    | none => .fault c1
    | some c2 => run fuel c2

end MainRs

/-! ## C1, C2: the single-byte and 16-bit memory accessors -/

/-- C1: the claim says `mem_read`/`mem_write` succeed for every 16-bit
address `0x0000`–`0xFFFF`.  They do succeed below `MEM_SIZE` and read
back what was written, but the array is `[u8; 0xFFFF]`, so at
`addr = 0xFFFF` both accessors hit an out-of-bounds index and panic
(`none`): the claim fails at the top address. -/
theorem c1_mem_accessor_bounds :
    (∀ (c : CPU) (addr : Nat), addr < MEM_SIZE →
        c.mem_read addr = some (c.memory addr)) ∧
    (∀ (c : CPU) (addr d : Nat), addr < MEM_SIZE →
        (c.mem_write addr d).bind (fun c1 => c1.mem_read addr) = some d) ∧
    CPU.new.mem_read 0xFFFF = none ∧
    CPU.new.mem_write 0xFFFF 0xAB = none := by
  refine ⟨?_, ?_, ?_, ?_⟩
  · intro c addr h
    simp [CPU.mem_read, h]
  · intro c addr d h
    simp [CPU.mem_write, CPU.mem_read, h]
  · simp [CPU.mem_read, CPU.new, MEM_SIZE]
  · simp [CPU.mem_write, CPU.new, MEM_SIZE]

/-- Witness for `c1_mem_accessor_bounds` at `addr = 0x5050`,
`d = 0xEA` (the repository's `test_mem_write_read`). -/
theorem c1_mem_accessor_bounds_witness :
    (0x5050 < MEM_SIZE) ∧
    (CPU.new.mem_write 0x5050 0xEA).bind (fun c1 => c1.mem_read 0x5050) =
      some 0xEA :=
  ⟨by decide, c1_mem_accessor_bounds.2.1 CPU.new 0x5050 0xEA (by decide)⟩

/-- C2: the 16-bit write/read round-trip holds whenever both touched
addresses are in bounds (`a + 1 < MEM_SIZE`), but the claimed boundary
behaviour at `a = 0xFFFF` does not: the low byte's index `0xFFFF` is
already out of bounds for the `[u8; 0xFFFF]` array, so `mem_write_u16`
panics (`none`) instead of wrapping the high byte to `0x0000` — and at
`a = 0xFFFE` the high byte's index `0xFFFF` panics as well. -/
theorem c2_u16_roundtrip :
    (∀ (c : CPU) (a d : Nat), a + 1 < MEM_SIZE → d < 65536 →
        (c.mem_write_u16 a d).bind (fun c1 => c1.mem_read_u16 a) = some d) ∧
    (∀ c : CPU, c.mem_write_u16 0xFFFF 0xBEEF = none) ∧
    CPU.new.mem_write_u16 0xFFFE 0xBEEF = none := by
  refine ⟨?_, ?_, ?_⟩
  · intro c a d h hd
    have ha : a < MEM_SIZE := by omega
    have h1 : a + 1 < 65536 := by
      have : MEM_SIZE = 65535 := rfl
      omega
    have hne : ¬ (a = a + 1) := by omega
    simp [CPU.mem_write_u16, CPU.mem_write, CPU.mem_read_u16, CPU.mem_read,
          Nat.mod_eq_of_lt h1, ha, h, hne]
    omega
  · intro c
    simp [CPU.mem_write_u16, CPU.mem_write, MEM_SIZE]
  · simp [CPU.mem_write_u16, CPU.mem_write, CPU.new, MEM_SIZE]

/-- Witness for `c2_u16_roundtrip` at `a = 0xdead`, `d = 0xbeef` (the
repository's `test_u16_read_write`). -/
theorem c2_u16_roundtrip_witness :
    (0xdead + 1 < MEM_SIZE) ∧ (0xbeef < 65536) ∧
    (CPU.new.mem_write_u16 0xdead 0xbeef).bind
        (fun c1 => c1.mem_read_u16 0xdead) = some 0xbeef :=
  ⟨by decide, by decide,
   c2_u16_roundtrip.1 CPU.new 0xdead 0xbeef (by decide) (by decide)⟩

/-! ## Bit-level behaviour of `set_flags` -/

/-- A `u8` has bit 7 set exactly when masking with `0b10000000` is
nonzero. -/
theorem and_128_ne_zero_iff (v : Nat) : (v &&& 128 ≠ 0) ↔ v.testBit 7 = true := by
  rw [show (128 : Nat) = 2 ^ 7 from rfl, Nat.and_two_pow]
  rcases h : v.testBit 7 <;> simp [h]

/-- Bit 1 of the updated status byte is set exactly when the operation
result is zero. -/
theorem setFlagsByte_testBit_one (s v : Nat) :
    ((setFlagsByte s v).testBit 1 = true) ↔ v = 0 := by
  unfold setFlagsByte
  by_cases h0 : v = 0
  · subst h0
    simp [show ((0 : Nat) &&& 128 ≠ 0) = False by simp,
          show Nat.testBit 2 1 = true from rfl,
          show Nat.testBit 127 1 = true from rfl]
  · simp only [if_neg h0]
    split <;>
      simp [h0, show Nat.testBit 253 1 = false from rfl,
            show Nat.testBit 128 1 = false from rfl,
            show Nat.testBit 127 1 = true from rfl]

/-- Bit 7 of the updated status byte equals bit 7 of the operation
result. -/
theorem setFlagsByte_testBit_seven (s v : Nat) :
    (setFlagsByte s v).testBit 7 = v.testBit 7 := by
  unfold setFlagsByte
  by_cases h7 : v &&& 128 ≠ 0
  · rw [if_pos h7, (and_128_ne_zero_iff v).mp h7]
    simp [show Nat.testBit 128 7 = true from rfl]
  · have hv : v.testBit 7 = false := by
      rcases hv : v.testBit 7
      · rfl
      · exact absurd ((and_128_ne_zero_iff v).mpr hv) h7
    rw [if_neg h7, hv]
    simp [show Nat.testBit 127 7 = false from rfl]

/-- Rust `set_flags` leaves every status bit other than 1 and 7 unchanged
(stated via the constant bits of the four masks). -/
theorem setFlagsByte_testBit_other (s v i : Nat)
    (h2 : Nat.testBit 2 i = false) (h253 : Nat.testBit 253 i = true)
    (h128 : Nat.testBit 128 i = false) (h127 : Nat.testBit 127 i = true) :
    (setFlagsByte s v).testBit i = s.testBit i := by
  unfold setFlagsByte
  split <;> split <;> simp [h2, h253, h128, h127]


/-! ## Frame behaviour of `CPU::get_address` -/

/-- Unfolding a successful `mem_read`. -/
theorem mem_read_some {c : CPU} {addr v : Nat} (h : c.mem_read addr = some v) :
    addr < MEM_SIZE ∧ v = c.memory addr := by
  unfold CPU.mem_read at h
  split at h
  · cases h
    exact ⟨‹_›, rfl⟩
  · exact Option.noConfusion h

/-- Unfolding a successful `mem_write`. -/
theorem mem_write_some {c c' : CPU} {addr d : Nat}
    (h : c.mem_write addr d = some c') :
    addr < MEM_SIZE ∧
    c' = { c with memory := fun i => if i = addr then d else c.memory i } := by
  unfold CPU.mem_write at h
  split at h
  · cases h
    exact ⟨‹_›, rfl⟩
  · exact Option.noConfusion h

/-- Whenever `get_address` returns (does not panic), the only mutated
state component is the program counter, advanced by the mode's byte
count (wrapping, as the Rust `u16` `+=`). -/
theorem get_address_frame (c : CPU) (m : AddressingMode) (c1 : CPU)
    (oa : Option Nat) (hpc : c.program_counter < 65536)
    (h : c.get_address m = some (c1, oa)) :
    c1.register_a = c.register_a ∧ c1.register_x = c.register_x ∧
    c1.register_y = c.register_y ∧ c1.status = c.status ∧
    c1.memory = c.memory ∧
    c1.program_counter = (c.program_counter + m.byteCount) % 65536 := by
  cases m with
  | Accumulator => exact Option.noConfusion h
  | Implied =>
    simp only [CPU.get_address, Option.some.injEq, Prod.mk.injEq] at h
    obtain ⟨h1, -⟩ := h
    subst h1
    exact ⟨rfl, rfl, rfl, rfl, rfl, by
      simp [AddressingMode.byteCount, Nat.mod_eq_of_lt hpc]⟩
  | Immediate =>
    simp only [CPU.get_address, Option.some.injEq, Prod.mk.injEq] at h
    obtain ⟨h1, -⟩ := h
    subst h1
    exact ⟨rfl, rfl, rfl, rfl, rfl, rfl⟩
  | ZeroPage =>
    simp only [CPU.get_address] at h
    split at h
    · exact Option.noConfusion h
    · simp only [Option.some.injEq, Prod.mk.injEq] at h
      obtain ⟨h1, -⟩ := h
      subst h1
      exact ⟨rfl, rfl, rfl, rfl, rfl, rfl⟩
  | ZeroPage_X =>
    simp only [CPU.get_address] at h
    split at h
    · exact Option.noConfusion h
    · simp only [Option.some.injEq, Prod.mk.injEq] at h
      obtain ⟨h1, -⟩ := h
      subst h1
      exact ⟨rfl, rfl, rfl, rfl, rfl, rfl⟩
  | ZeroPage_Y =>
    simp only [CPU.get_address] at h
    split at h
    · exact Option.noConfusion h
    · simp only [Option.some.injEq, Prod.mk.injEq] at h
      obtain ⟨h1, -⟩ := h
      subst h1
      exact ⟨rfl, rfl, rfl, rfl, rfl, rfl⟩
  | Relative =>
    simp only [CPU.get_address] at h
    split at h
    · exact Option.noConfusion h
    · simp only [Option.some.injEq, Prod.mk.injEq] at h
      obtain ⟨h1, -⟩ := h
      subst h1
      exact ⟨rfl, rfl, rfl, rfl, rfl, rfl⟩
  | Absolute =>
    simp only [CPU.get_address] at h
    split at h
    · exact Option.noConfusion h
    · simp only [Option.some.injEq, Prod.mk.injEq] at h
      obtain ⟨h1, -⟩ := h
      subst h1
      exact ⟨rfl, rfl, rfl, rfl, rfl, rfl⟩
  | Absolute_X =>
    simp only [CPU.get_address] at h
    split at h
    · exact Option.noConfusion h
    · simp only [Option.some.injEq, Prod.mk.injEq] at h
      obtain ⟨h1, -⟩ := h
      subst h1
      exact ⟨rfl, rfl, rfl, rfl, rfl, rfl⟩
  | Absolute_Y =>
    simp only [CPU.get_address] at h
    split at h
    · exact Option.noConfusion h
    · simp only [Option.some.injEq, Prod.mk.injEq] at h
      obtain ⟨h1, -⟩ := h
      subst h1
      exact ⟨rfl, rfl, rfl, rfl, rfl, rfl⟩
  | Indirect =>
    simp only [CPU.get_address] at h
    split at h
    · exact Option.noConfusion h
    · split at h
      · exact Option.noConfusion h
      · simp only [Option.some.injEq, Prod.mk.injEq] at h
        obtain ⟨h1, -⟩ := h
        subst h1
        exact ⟨rfl, rfl, rfl, rfl, rfl, rfl⟩
  | Indirect_X =>
    simp only [CPU.get_address] at h
    split at h
    · exact Option.noConfusion h
    · split at h
      · exact Option.noConfusion h
      · simp only [Option.some.injEq, Prod.mk.injEq] at h
        obtain ⟨h1, -⟩ := h
        subst h1
        exact ⟨rfl, rfl, rfl, rfl, rfl, rfl⟩
  | Indirect_Y =>
    simp only [CPU.get_address] at h
    split at h
    · exact Option.noConfusion h
    · split at h
      · exact Option.noConfusion h
      · simp only [Option.some.injEq, Prod.mk.injEq] at h
        obtain ⟨h1, -⟩ := h
        subst h1
        exact ⟨rfl, rfl, rfl, rfl, rfl, rfl⟩

/-- Unfolding a successful `mem_read_u16`. -/
theorem mem_read_u16_some {c : CPU} {addr w : Nat}
    (h : c.mem_read_u16 addr = some w) :
    addr < MEM_SIZE ∧ (addr + 1) % 65536 < MEM_SIZE ∧
    w = c.memory addr + 256 * c.memory ((addr + 1) % 65536) := by
  unfold CPU.mem_read_u16 at h
  split at h
  · exact Option.noConfusion h
  · split at h
    · exact Option.noConfusion h
    · rename_i s1 lo hlo s2 hi hhi
      cases h
      obtain ⟨hlo1, hlo2⟩ := mem_read_some hlo
      obtain ⟨hhi1, hhi2⟩ := mem_read_some hhi
      subst hlo2
      subst hhi2
      exact ⟨hlo1, hhi1, rfl⟩

/-! ## C7: `get_address` frame effect and counter advance -/

/-- C7: for every addressing mode on which `get_address` succeeds, only
the program counter changes — registers, status and memory are intact —
and the counter is advanced by the mode's byte count (`byteCount`
records 0 for Implied, 1 for Immediate/ZeroPage/ZeroPage_X/ZeroPage_Y/
Relative/Indirect_X/Indirect_Y, 2 for Absolute/Absolute_X/Absolute_Y/
Indirect), wrapping at 16 bits like the Rust `u16` `+=`. -/
theorem c7_get_address_counter (c : CPU) (m : AddressingMode) (c1 : CPU)
    (oa : Option Nat) (hpc : c.program_counter < 65536)
    (h : c.get_address m = some (c1, oa)) :
    c1.register_a = c.register_a ∧ c1.register_x = c.register_x ∧
    c1.register_y = c.register_y ∧ c1.status = c.status ∧
    c1.memory = c.memory ∧
    c1.program_counter = (c.program_counter + m.byteCount) % 65536 ∧
    (c.program_counter + m.byteCount < 65536 →
      c1.program_counter = c.program_counter + m.byteCount) := by
  obtain ⟨h1, h2, h3, h4, h5, h6⟩ := get_address_frame c m c1 oa hpc h
  exact ⟨h1, h2, h3, h4, h5, h6, fun hlt => by rw [h6, Nat.mod_eq_of_lt hlt]⟩

/-- Witness for `c7_get_address_counter`: `Immediate` mode on the fresh
CPU advances the counter from 0 to 1 and leaves the status intact. -/
theorem c7_get_address_counter_witness :
    CPU.new.program_counter < 65536 ∧
    CPU.new.get_address .Immediate =
      some ({ CPU.new with program_counter := 1 }, some 0) ∧
    ({ CPU.new with program_counter := 1 } : CPU).status = CPU.new.status :=
  ⟨by decide, rfl,
   (c7_get_address_counter CPU.new .Immediate
      { CPU.new with program_counter := 1 } (some 0) (by decide) rfl).2.2.2.1⟩

/-! ## C8: zero-page indexed addressing wraps inside page 0 -/

/-- The state of the spec's zero-page wraparound test: index register X
holds `0xFF` and every memory byte reads `0x80`. -/
def cpuZpx : CPU :=
  { program_counter := 0, register_a := 0, register_x := 0xFF,
    register_y := 0, status := 0, memory := fun _ => 0x80 }

/-- C8: `ZeroPage_X` and `ZeroPage_Y` produce
`(operand byte + index register) % 256`, always inside page 0; in
particular operand `0x80` with X = `0xFF` resolves to `0x007F`. -/
theorem c8_zeropage_indexed_wrap :
    (∀ (c : CPU) (c1 : CPU) (a : Nat),
        c.get_address .ZeroPage_X = some (c1, some a) →
        a = (c.memory c.program_counter + c.register_x) % 256 ∧ a < 256) ∧
    (∀ (c : CPU) (c1 : CPU) (a : Nat),
        c.get_address .ZeroPage_Y = some (c1, some a) →
        a = (c.memory c.program_counter + c.register_y) % 256 ∧ a < 256) ∧
    cpuZpx.get_address .ZeroPage_X =
      some ({ cpuZpx with program_counter := 1 }, some 0x7F) := by
  refine ⟨?_, ?_, rfl⟩
  · intro c c1 a h
    simp only [CPU.get_address] at h
    split at h
    · exact Option.noConfusion h
    · rename_i b hb
      obtain ⟨-, hb2⟩ := mem_read_some hb
      subst hb2
      simp only [Option.some.injEq, Prod.mk.injEq] at h
      obtain ⟨-, h2⟩ := h
      cases h2
      exact ⟨rfl, Nat.mod_lt _ (by norm_num)⟩
  · intro c c1 a h
    simp only [CPU.get_address] at h
    split at h
    · exact Option.noConfusion h
    · rename_i b hb
      obtain ⟨-, hb2⟩ := mem_read_some hb
      subst hb2
      simp only [Option.some.injEq, Prod.mk.injEq] at h
      obtain ⟨-, h2⟩ := h
      cases h2
      exact ⟨rfl, Nat.mod_lt _ (by norm_num)⟩

/-- Witness for `c8_zeropage_indexed_wrap`: the `ZeroPage_X` part applied
at `cpuZpx` (operand `0x80`, X = `0xFF`): the address is `0x7F` and lies
in page 0. -/
theorem c8_zeropage_indexed_wrap_witness :
    (0x7F : Nat) = (cpuZpx.memory cpuZpx.program_counter + cpuZpx.register_x) % 256 ∧
    (0x7F : Nat) < 256 :=
  c8_zeropage_indexed_wrap.1 cpuZpx { cpuZpx with program_counter := 1 } 0x7F rfl

/-! ## C9: `Indirect_X` reads its pointer word across the page-0 edge -/

/-- State demonstrating the `Indirect_X` page-crossing read: operand
`0xF0` plus X = `0x0F` gives pointer `0x00FF`; the word there is read
from `0x00FF` (low) and `0x0100` (high). -/
def cpuIndX : CPU :=
  { program_counter := 0, register_a := 0, register_x := 0x0F,
    register_y := 0, status := 0,
    memory := fun i =>
      if i = 0 then 0xF0 else if i = 0xFF then 0xCD else
        if i = 0x100 then 0xAB else 0 }

/-- C9: under `Indirect_X` the pointer is
`p = (operand byte + X) % 256` and the effective address is the
little-endian word at `p` and `p+1`; `p+1` is not wrapped back into the
zero page, so `p = 0xFF` reads its high byte from `0x0100` (the concrete
instance yields `0xABCD`, whose high byte `0xAB` lives at `0x0100`). -/
theorem c9_indirect_x_pointer :
    (∀ (c : CPU) (c1 : CPU) (a : Nat),
        c.get_address .Indirect_X = some (c1, some a) →
        a = c.memory ((c.memory c.program_counter + c.register_x) % 256) +
            256 * c.memory ((c.memory c.program_counter + c.register_x) % 256 + 1)) ∧
    cpuIndX.get_address .Indirect_X =
      some ({ cpuIndX with program_counter := 1 }, some 0xABCD) := by
  refine ⟨?_, rfl⟩
  intro c c1 a h
  simp only [CPU.get_address] at h
  split at h
  · exact Option.noConfusion h
  · rename_i b hb
    obtain ⟨-, hb2⟩ := mem_read_some hb
    subst hb2
    split at h
    · exact Option.noConfusion h
    · rename_i w hw
      obtain ⟨-, -, hw3⟩ := mem_read_u16_some hw
      simp only [Option.some.injEq, Prod.mk.injEq] at h
      obtain ⟨-, h2⟩ := h
      cases h2
      have hp : (c.memory c.program_counter + c.register_x) % 256 + 1 < 65536 := by
        have := Nat.mod_lt (c.memory c.program_counter + c.register_x)
          (show 0 < 256 by norm_num)
        omega
      rw [hw3, Nat.mod_eq_of_lt hp]

/-- Witness for `c9_indirect_x_pointer` at `cpuIndX`: the resolved word
`0xABCD` is the little-endian pair at pointer `0xFF` and `0x100`. -/
theorem c9_indirect_x_pointer_witness :
    (0xABCD : Nat) =
      cpuIndX.memory ((cpuIndX.memory cpuIndX.program_counter + cpuIndX.register_x) % 256) +
      256 * cpuIndX.memory
        ((cpuIndX.memory cpuIndX.program_counter + cpuIndX.register_x) % 256 + 1) :=
  c9_indirect_x_pointer.1 cpuIndX { cpuIndX with program_counter := 1 } 0xABCD rfl

/-! ## C3: the flag-update policy -/

/-- The spec's flag-update policy relating the status byte before an
operation (`old`), after it (`new`), and the affected 8-bit value `v`:
bit 1 set iff `v = 0`, bit 7 mirrors bit 7 of `v`, and bits
0, 2, 3, 4, 5, 6 unchanged. -/
def FlagPolicy (old new v : Nat) : Prop :=
  (new.testBit 1 = true ↔ v = 0) ∧
  new.testBit 7 = v.testBit 7 ∧
  new.testBit 0 = old.testBit 0 ∧
  new.testBit 2 = old.testBit 2 ∧
  new.testBit 3 = old.testBit 3 ∧
  new.testBit 4 = old.testBit 4 ∧
  new.testBit 5 = old.testBit 5 ∧
  new.testBit 6 = old.testBit 6

/-- Rust `set_flags` satisfies the flag-update policy. -/
theorem setFlagsByte_policy (s v : Nat) : FlagPolicy s (setFlagsByte s v) v :=
  ⟨setFlagsByte_testBit_one s v, setFlagsByte_testBit_seven s v,
   setFlagsByte_testBit_other s v 0 rfl rfl rfl rfl,
   setFlagsByte_testBit_other s v 2 rfl rfl rfl rfl,
   setFlagsByte_testBit_other s v 3 rfl rfl rfl rfl,
   setFlagsByte_testBit_other s v 4 rfl rfl rfl rfl,
   setFlagsByte_testBit_other s v 5 rfl rfl rfl rfl,
   setFlagsByte_testBit_other s v 6 rfl rfl rfl rfl⟩

/-- C3: each of LDA/LDX/LDY/STA/TAX/INX applies the flag-update policy
to its affected 8-bit value — the freshly loaded register for the load
family, the stored accumulator for STA, the new X for TAX and INX — and
touches no other status bit. -/
theorem c3_flag_policy (c : CPU) (m : AddressingMode) (c' : CPU)
    (hpc : c.program_counter < 65536) :
    (c.lda m = some c' → FlagPolicy c.status c'.status c'.register_a) ∧
    (c.ldx m = some c' → FlagPolicy c.status c'.status c'.register_x) ∧
    (c.ldy m = some c' → FlagPolicy c.status c'.status c'.register_y) ∧
    (c.sta m = some c' → FlagPolicy c.status c'.status c.register_a) ∧
    FlagPolicy c.status c.tax.status c.tax.register_x ∧
    FlagPolicy c.status c.inx.status c.inx.register_x := by
  refine ⟨?_, ?_, ?_, ?_, ?_, ?_⟩
  · intro h
    unfold CPU.lda at h
    split at h
    · exact Option.noConfusion h
    · exact Option.noConfusion h
    · rename_i c1 addr hga
      split at h
      · exact Option.noConfusion h
      · rename_i v hv
        cases h
        have hst := (get_address_frame c m c1 (some addr) hpc hga).2.2.2.1
        show FlagPolicy c.status (setFlagsByte c1.status v) v
        rw [hst]
        exact setFlagsByte_policy c.status v
  · intro h
    unfold CPU.ldx at h
    split at h
    · exact Option.noConfusion h
    · exact Option.noConfusion h
    · rename_i c1 addr hga
      split at h
      · exact Option.noConfusion h
      · rename_i v hv
        cases h
        have hst := (get_address_frame c m c1 (some addr) hpc hga).2.2.2.1
        show FlagPolicy c.status (setFlagsByte c1.status v) v
        rw [hst]
        exact setFlagsByte_policy c.status v
  · intro h
    unfold CPU.ldy at h
    split at h
    · exact Option.noConfusion h
    · exact Option.noConfusion h
    · rename_i c1 addr hga
      split at h
      · exact Option.noConfusion h
      · rename_i v hv
        cases h
        have hst := (get_address_frame c m c1 (some addr) hpc hga).2.2.2.1
        show FlagPolicy c.status (setFlagsByte c1.status v) v
        rw [hst]
        exact setFlagsByte_policy c.status v
  · intro h
    unfold CPU.sta at h
    split at h
    · exact Option.noConfusion h
    · exact Option.noConfusion h
    · rename_i c1 addr hga
      split at h
      · exact Option.noConfusion h
      · rename_i c2 hw
        cases h
        obtain ⟨ha, -, -, hst, -, -⟩ :=
          get_address_frame c m c1 (some addr) hpc hga
        obtain ⟨-, hc2⟩ := mem_write_some hw
        subst hc2
        show FlagPolicy c.status (setFlagsByte c1.status c1.register_a) c.register_a
        rw [hst, ha]
        exact setFlagsByte_policy c.status c.register_a
  · exact setFlagsByte_policy c.status c.register_a
  · exact setFlagsByte_policy c.status ((c.register_x + 1) % 256)

/-- Witness for `c3_flag_policy`: immediate LDA of `0x00` on the fresh
CPU sets the status byte to `0b10` and satisfies the policy for the
loaded value. -/
theorem c3_flag_policy_witness :
    CPU.new.lda .Immediate =
      some { CPU.new with program_counter := 1, status := 2 } ∧
    FlagPolicy CPU.new.status
      ({ CPU.new with program_counter := 1, status := 2 } : CPU).status
      ({ CPU.new with program_counter := 1, status := 2 } : CPU).register_a :=
  ⟨rfl,
   (c3_flag_policy CPU.new .Immediate
      { CPU.new with program_counter := 1, status := 2 } (by decide)).1 rfl⟩

/-! ## C5: `reset` -/

/-- Rust `reset` always succeeds: the two vector addresses are in bounds, the
program counter becomes the little-endian word at `0xFFFC`, the
accumulator, X and status are zeroed, Y and memory are untouched. -/
theorem reset_spec (c : CPU) : c.reset =
    some { c with register_a := 0, register_x := 0, status := 0,
                  program_counter :=
                    c.memory 0xFFFC + 256 * c.memory 0xFFFD } := rfl

/-- C5: `reset` always succeeds (the vector addresses `0xFFFC`/`0xFFFD`
are in bounds), puts the little-endian word at `0xFFFC` into the program
counter, zeroes the accumulator, X and the status byte, and leaves
`register_y` and the whole memory untouched; and after any `load` of a
loadable program, `reset` leaves the counter at `0x8000`. -/
theorem c5_reset :
    (∀ c : CPU, c.reset =
        some { c with register_a := 0, register_x := 0, status := 0,
                      program_counter :=
                        c.memory 0xFFFC + 256 * c.memory 0xFFFD }) ∧
    (∀ (c : CPU) (program : List Nat), program ≠ [] →
        0x8000 + program.length ≤ MEM_SIZE →
        Option.map CPU.program_counter ((c.load program).bind CPU.reset) =
          some 0x8000) := by
  constructor
  · exact reset_spec
  · intro c program hne hlen
    rw [CPU.load, if_pos hlen]
    simp only [CPU.mem_write_u16, CPU.mem_write, CPU.reset, CPU.mem_read_u16,
      CPU.mem_read, MEM_SIZE]
    norm_num

/-- Witness for `c5_reset`: loading the one-byte program `[0]` and
resetting leaves the counter at `0x8000`. -/
theorem c5_reset_witness :
    Option.map CPU.program_counter ((CPU.new.load [0]).bind CPU.reset) =
      some 0x8000 :=
  c5_reset.2 CPU.new [0] (by decide) (by decide)

/-! ## C6: `load` -/

/-- The CPU produced by loading `[7]` into a fresh CPU. -/
def loadedNew : CPU :=
  match CPU.new.load [7] with
  | some c => c
  | none => CPU.new

/-- What a successful `load` of a program that stays below the reset
vector does to the state: program bytes land verbatim at `0x8000..`,
the vector word at `0xFFFC` reads back `0x8000`, and everything else
(memory below `0x8000`, all registers, the counter) is untouched. -/
theorem load_spec (c c' : CPU) (bytes : List Nat)
    (hlen : bytes.length ≤ 0x7FFC) (hload : c.load bytes = some c') :
    (∀ i, i < bytes.length → c'.memory (0x8000 + i) = bytes.getD i 0) ∧
    c'.memory 0xFFFC + 256 * c'.memory 0xFFFD = 0x8000 ∧
    (∀ a, a < 0x8000 → c'.memory a = c.memory a) ∧
    c'.program_counter = c.program_counter ∧
    c'.register_a = c.register_a ∧ c'.register_x = c.register_x ∧
    c'.register_y = c.register_y ∧ c'.status = c.status := by
  rw [CPU.load, if_pos (by unfold MEM_SIZE; omega)] at hload
  simp only [CPU.mem_write_u16, CPU.mem_write, MEM_SIZE] at hload
  norm_num at hload
  have hm : ∀ j, c'.memory j =
      if j = 0xFFFD then 128 else if j = 0xFFFC then 0
      else if 0x8000 ≤ j ∧ j < 0x8000 + bytes.length
      then bytes.getD (j - 0x8000) 0
      else c.memory j := by
    intro j
    rw [← hload]
    simp [List.getD]
  refine ⟨?_, ?_, ?_, ?_, ?_, ?_, ?_, ?_⟩
  · intro i hi
    rw [hm]
    rw [if_neg (by omega), if_neg (by omega), if_pos (by omega)]
    have hidx : 0x8000 + i - 0x8000 = i := by omega
    rw [hidx]
  · rw [hm, hm]
    norm_num
  · intro a ha
    rw [hm]
    rw [if_neg (by omega), if_neg (by omega), if_neg (by omega)]
  · rw [← hload]
  · rw [← hload]
  · rw [← hload]
  · rw [← hload]
  · rw [← hload]

/-- C6: `load` succeeds whenever `0x8000 + len ≤ MEM_SIZE = 0xFFFF`,
copies the program verbatim to `0x8000..`, plants the little-endian
reset vector `0x8000` at `0xFFFC`, and changes no register and no
memory below `0x8000`.  The claim's caller bound
`0x8000 + len ≤ 0x10000` is however not enough: the array is one byte
short of 64 KiB, so a program of length `0x8000` (which satisfies that
bound) panics (`none`). -/
theorem c6_load :
    (∀ (c : CPU) (bytes : List Nat), 0x8000 + bytes.length ≤ MEM_SIZE →
        (c.load bytes).isSome = true) ∧
    (∀ (c c' : CPU) (bytes : List Nat), bytes.length ≤ 0x7FFC →
        c.load bytes = some c' →
        (∀ i, i < bytes.length → c'.memory (0x8000 + i) = bytes.getD i 0) ∧
        c'.memory 0xFFFC + 256 * c'.memory 0xFFFD = 0x8000 ∧
        (∀ a, a < 0x8000 → c'.memory a = c.memory a) ∧
        c'.program_counter = c.program_counter ∧
        c'.register_a = c.register_a ∧ c'.register_x = c.register_x ∧
        c'.register_y = c.register_y ∧ c'.status = c.status) ∧
    CPU.new.load (List.replicate 0x8000 0) = none := by
  refine ⟨?_, ?_, ?_⟩
  · intro c bytes hlen
    rw [CPU.load, if_pos hlen]
    simp only [CPU.mem_write_u16, CPU.mem_write, MEM_SIZE]
    norm_num
  · exact load_spec
  · rw [CPU.load, if_neg]
    rw [List.length_replicate]
    decide

/-- Witness for `c6_load`: loading the one-byte program `[7]` into a
fresh CPU succeeds and plants the vector `0x8000` at `0xFFFC`. -/
theorem c6_load_witness :
    ((CPU.new.load [7]).isSome = true) ∧
    loadedNew.memory 0xFFFC + 256 * loadedNew.memory 0xFFFD = 0x8000 :=
  ⟨c6_load.1 CPU.new [7] (by decide),
   (c6_load.2.1 CPU.new loadedNew [7] (by decide) rfl).2.1⟩

/-! ## C4: the execution loop halts exactly on BRK -/

/-- A successful catalog lookup returns a row whose hex key is the
looked-up byte. -/
theorem OPCODES_MAP_some {code : Nat} {op : Opcode}
    (h : OPCODES_MAP code = some op) :
    op.hex = code ∧ op ∈ CPU_OPS_CODES := by
  unfold OPCODES_MAP at h
  have hp := List.find?_some h
  have hm := List.mem_of_find?_eq_some h
  simp only [beq_iff_eq] at hp
  exact ⟨hp, hm⟩

/-- The only catalog row carrying the `BRK` mnemonic is the one for hex
`0x00`. -/
theorem brk_hex_zero : ∀ op ∈ CPU_OPS_CODES,
    op.mnemonic = CpuMnemonic.BRK → op.hex = 0 := by decide

/-- One loop iteration of `CPU::run` ends the loop exactly when the
byte fetched at the program counter is `0x00` (the only `BRK` row), and
the returned state is the fetched-over state: counter advanced by 1,
everything else intact. -/
theorem step_halted_iff (c : CPU) (c1 : CPU) :
    c.step = StepResult.halted c1 ↔
    (c.mem_read c.program_counter = some 0 ∧
     c1 = { c with program_counter := (c.program_counter + 1) % 65536 }) := by
  constructor
  · intro h
    unfold CPU.step at h
    split at h
    · exact StepResult.noConfusion h
    · rename_i code hread
      split at h
      · exact StepResult.noConfusion h
      · rename_i op hfind
        dsimp only at h
        split at h
        · split at h
          · exact StepResult.noConfusion h
          · exact StepResult.noConfusion h
        · split at h
          · exact StepResult.noConfusion h
          · exact StepResult.noConfusion h
        · split at h
          · exact StepResult.noConfusion h
          · exact StepResult.noConfusion h
        · split at h
          · exact StepResult.noConfusion h
          · exact StepResult.noConfusion h
        · exact StepResult.noConfusion h
        · exact StepResult.noConfusion h
        · rename_i hmn
          cases h
          obtain ⟨hhex, hmem⟩ := OPCODES_MAP_some hfind
          have h0 : code = 0 := hhex ▸ brk_hex_zero op hmem hmn
          subst h0
          exact ⟨hread, rfl⟩
  · rintro ⟨hread, rfl⟩
    unfold CPU.step
    rw [hread]
    rfl

/-- A fetched byte with no catalog row makes `run` stop at once with a
decode fault carrying that byte, for any remaining fuel. -/
theorem step_decode_fault {c : CPU} {code : Nat}
    (hread : c.mem_read c.program_counter = some code)
    (hnone : OPCODES_MAP code = none) :
    c.step = StepResult.decodeFault
      { c with program_counter := (c.program_counter + 1) % 65536 } code := by
  simp only [CPU.step, hread, hnone]

/-- Whenever a bounded `run` reports `halted`, the final state was
produced by fetching a `0x00` byte and advancing the counter past it. -/
theorem run_halted_fetch (fuel : Nat) :
    ∀ c c1 : CPU, CPU.run fuel c = RunOutcome.halted c1 →
    ∃ c0 : CPU, c0.mem_read c0.program_counter = some 0 ∧
      c1 = { c0 with program_counter := (c0.program_counter + 1) % 65536 } := by
  induction fuel with
  | zero =>
    intro c c1 h
    exact RunOutcome.noConfusion h
  | succ n ih =>
    intro c c1 h
    simp only [CPU.run] at h
    cases hs : c.step with
    | halted c' =>
      rw [hs] at h
      cases h
      obtain ⟨hread, hadv⟩ := (step_halted_iff c c1).mp hs
      exact ⟨c, hread, hadv⟩
    | next c' =>
      rw [hs] at h
      exact ih c' c1 h
    | decodeFault c' code =>
      rw [hs] at h
      exact RunOutcome.noConfusion h
    | fault c' =>
      rw [hs] at h
      exact RunOutcome.noConfusion h

/-- C4: the loop of `CPU::run` returns control exactly on fetching the
`BRK` byte `0x00`; each iteration fetches at the counter and advances it
by 1 before decoding (visible in the states carried by both the halt and
the decode fault); a byte without catalog row is a fatal decode fault
that ends the run immediately, whatever fuel remains. -/
theorem c4_run_halt_and_decode :
    (∀ c c1 : CPU, c.step = StepResult.halted c1 ↔
        (c.mem_read c.program_counter = some 0x00 ∧
         c1 = { c with program_counter := (c.program_counter + 1) % 65536 })) ∧
    (∀ (c : CPU) (code fuel : Nat),
        c.mem_read c.program_counter = some code →
        OPCODES_MAP code = none →
        CPU.run (fuel + 1) c =
          RunOutcome.decodeFault
            { c with program_counter := (c.program_counter + 1) % 65536 } code) ∧
    (∀ (fuel : Nat) (c c1 : CPU), CPU.run fuel c = RunOutcome.halted c1 →
        ∃ c0 : CPU, c0.mem_read c0.program_counter = some 0x00 ∧
          c1 = { c0 with program_counter := (c0.program_counter + 1) % 65536 }) :=
  ⟨step_halted_iff,
   fun c code fuel hread hnone => by
     simp only [CPU.run]
     rw [step_decode_fault hread hnone],
   run_halted_fetch⟩

/-- A CPU whose memory holds the uncatalogued byte `0xFF` everywhere. -/
def cpuBadOp : CPU :=
  { program_counter := 0, register_a := 0, register_x := 0,
    register_y := 0, status := 0, memory := fun _ => 0xFF }

/-- Witness for `c4_run_halt_and_decode`: the fresh CPU fetches `0x00`
and halts with the counter advanced to 1; fetching `0xFF` decode-faults
`run` at once. -/
theorem c4_run_halt_and_decode_witness :
    CPU.new.step = StepResult.halted { CPU.new with program_counter := 1 } ∧
    CPU.run 1 cpuBadOp =
      RunOutcome.decodeFault { cpuBadOp with program_counter := 1 } 0xFF :=
  ⟨(c4_run_halt_and_decode.1 CPU.new
      { CPU.new with program_counter := 1 }).mpr ⟨rfl, rfl⟩,
   c4_run_halt_and_decode.2.1 cpuBadOp 0xFF 0 rfl rfl⟩

/-! ## C10: the catalog-driven and hardcoded interpreters agree -/

/-- The instruction subset implemented by BOTH interpreters: immediate
LDA (opcode `0xA9` with its operand byte), TAX (`0xAA`), INX (`0xE8`). -/
inductive Instr where
  | ldaImm (b : Nat)
  | tax
  | inx

/-- Encoding of one instruction as program bytes. -/
def Instr.enc : Instr → List Nat
  | .ldaImm b => [0xA9, b]
  | .tax => [0xAA]
  | .inx => [0xE8]

/-- A whole program of the common subset: the encoded instructions
followed by the halt byte `0x00`. -/
def encProg (instrs : List Instr) : List Nat :=
  (instrs.map Instr.enc).flatten ++ [0x00]

theorem encProg_nil : encProg [] = [0x00] := rfl

theorem encProg_cons (i : Instr) (is : List Instr) :
    encProg (i :: is) = i.enc ++ encProg is := by
  simp [encProg, List.flatten, List.append_assoc]

theorem encProg_length_pos (is : List Instr) : 0 < (encProg is).length := by
  simp [encProg]

/-- One catalog-driven loop iteration on an immediate LDA. -/
theorem step_lda_imm {c : CPU} {b : Nat} (hpc : c.program_counter + 2 < 65536)
    (h0 : c.memory c.program_counter = 0xA9)
    (h1 : c.memory (c.program_counter + 1) = b) :
    c.step = StepResult.next
      { c with program_counter := c.program_counter + 2, register_a := b,
               status := setFlagsByte c.status b } := by
  have hr0 : c.mem_read c.program_counter = some 0xA9 := by
    unfold CPU.mem_read MEM_SIZE
    rw [if_pos (by omega), h0]
  have hp1 : (c.program_counter + 1) % 65536 = c.program_counter + 1 :=
    Nat.mod_eq_of_lt (by omega)
  have hr1 : c.mem_read ((c.program_counter + 1) % 65536) = some b := by
    unfold CPU.mem_read MEM_SIZE
    rw [hp1, if_pos (by omega), h1]
  simp only [CPU.step, hr0, show OPCODES_MAP 0xA9 =
    some ⟨0xA9, .LDA, 2, .Immediate⟩ from rfl, CPU.lda, CPU.get_address,
    CPU.set_flags, hr1, hp1]
  have hp2 : (c.program_counter + 1 + 1) % 65536 = c.program_counter + 2 :=
    Nat.mod_eq_of_lt (by omega)
  have hlt1 : c.program_counter + 1 < 65535 := by omega
  simp only [hp2, CPU.mem_read, MEM_SIZE, hlt1, if_true, h1]

/-- One catalog-driven loop iteration on TAX. -/
theorem step_tax {c : CPU} (hpc : c.program_counter + 1 < 65536)
    (h0 : c.memory c.program_counter = 0xAA) :
    c.step = StepResult.next
      { c with program_counter := c.program_counter + 1,
               register_x := c.register_a,
               status := setFlagsByte c.status c.register_a } := by
  have hr0 : c.mem_read c.program_counter = some 0xAA := by
    unfold CPU.mem_read MEM_SIZE
    rw [if_pos (by omega), h0]
  have hp1 : (c.program_counter + 1) % 65536 = c.program_counter + 1 :=
    Nat.mod_eq_of_lt (by omega)
  simp only [CPU.step, hr0, show OPCODES_MAP 0xAA =
    some ⟨0xAA, .TAX, 2, .Implied⟩ from rfl, CPU.tax, CPU.set_flags, hp1]

/-- One catalog-driven loop iteration on INX. -/
theorem step_inx {c : CPU} (hpc : c.program_counter + 1 < 65536)
    (h0 : c.memory c.program_counter = 0xE8) :
    c.step = StepResult.next
      { c with program_counter := c.program_counter + 1,
               register_x := (c.register_x + 1) % 256,
               status := setFlagsByte c.status ((c.register_x + 1) % 256) } := by
  have hr0 : c.mem_read c.program_counter = some 0xE8 := by
    unfold CPU.mem_read MEM_SIZE
    rw [if_pos (by omega), h0]
  have hp1 : (c.program_counter + 1) % 65536 = c.program_counter + 1 :=
    Nat.mod_eq_of_lt (by omega)
  simp only [CPU.step, hr0, show OPCODES_MAP 0xE8 =
    some ⟨0xE8, .INX, 2, .Implied⟩ from rfl, CPU.inx, CPU.set_flags, hp1]

/-- A `next` loop iteration makes `run` continue on the new state. -/
theorem run_next (n : Nat) {c c' : CPU} (h : c.step = StepResult.next c') :
    CPU.run (n + 1) c = CPU.run n c' := by
  simp only [CPU.run, h]

/-- A catalog-driven run on a `0x00` byte halts past it. -/
theorem run_brk (n : Nat) {c : CPU} (hpc : c.program_counter + 1 < 65536)
    (h0 : c.memory c.program_counter = 0) :
    CPU.run (n + 1) c =
      RunOutcome.halted { c with program_counter := c.program_counter + 1 } := by
  have hr0 : c.mem_read c.program_counter = some 0 := by
    unfold CPU.mem_read MEM_SIZE
    rw [if_pos (by omega), h0]
  have hs := (step_halted_iff c
    { c with program_counter := (c.program_counter + 1) % 65536 }).mpr ⟨hr0, rfl⟩
  simp only [CPU.run, hs, Nat.mod_eq_of_lt hpc]

/-- One hardcoded loop iteration on an immediate LDA. -/
theorem mainRun_lda_imm (n : Nat) {c : CPU} {b : Nat}
    (hpc : c.program_counter + 2 < 65536)
    (h0 : c.memory c.program_counter = 0xA9)
    (h1 : c.memory (c.program_counter + 1) = b) :
    MainRs.run (n + 1) c = MainRs.run n
      { c with program_counter := c.program_counter + 2, register_a := b,
               status := setFlagsByte c.status b } := by
  have hr0 : c.mem_read c.program_counter = some 0xA9 := by
    unfold CPU.mem_read MEM_SIZE
    rw [if_pos (by omega), h0]
  have hp1 : (c.program_counter + 1) % 65536 = c.program_counter + 1 :=
    Nat.mod_eq_of_lt (by omega)
  have hp2 : (c.program_counter + 1 + 1) % 65536 = c.program_counter + 2 :=
    Nat.mod_eq_of_lt (by omega)
  have hlt1 : c.program_counter + 1 < 65535 := by omega
  simp only [MainRs.run, hr0]
  norm_num
  simp only [hp1, CPU.mem_read, MEM_SIZE, hlt1, if_true, h1, CPU.set_flags, hp2]

/-- One hardcoded loop iteration on TAX. -/
theorem mainRun_tax (n : Nat) {c : CPU} (hpc : c.program_counter + 1 < 65536)
    (h0 : c.memory c.program_counter = 0xAA) :
    MainRs.run (n + 1) c = MainRs.run n
      { c with program_counter := c.program_counter + 1,
               register_x := c.register_a,
               status := setFlagsByte c.status c.register_a } := by
  have hr0 : c.mem_read c.program_counter = some 0xAA := by
    unfold CPU.mem_read MEM_SIZE
    rw [if_pos (by omega), h0]
  have hp1 : (c.program_counter + 1) % 65536 = c.program_counter + 1 :=
    Nat.mod_eq_of_lt (by omega)
  simp only [MainRs.run, hr0, hp1, CPU.set_flags]
  norm_num

/-- One hardcoded loop iteration on INX. -/
theorem mainRun_inx (n : Nat) {c : CPU} (hpc : c.program_counter + 1 < 65536)
    (h0 : c.memory c.program_counter = 0xE8) :
    MainRs.run (n + 1) c = MainRs.run n
      { c with program_counter := c.program_counter + 1,
               register_x := (c.register_x + 1) % 256,
               status := setFlagsByte c.status ((c.register_x + 1) % 256) } := by
  have hr0 : c.mem_read c.program_counter = some 0xE8 := by
    unfold CPU.mem_read MEM_SIZE
    rw [if_pos (by omega), h0]
  have hp1 : (c.program_counter + 1) % 65536 = c.program_counter + 1 :=
    Nat.mod_eq_of_lt (by omega)
  simp only [MainRs.run, hr0, hp1, CPU.set_flags]
  norm_num

/-- A hardcoded run on a `0x00` byte halts past it. -/
theorem mainRun_brk (n : Nat) {c : CPU} (hpc : c.program_counter + 1 < 65536)
    (h0 : c.memory c.program_counter = 0) :
    MainRs.run (n + 1) c =
      RunOutcome.halted { c with program_counter := c.program_counter + 1 } := by
  have hr0 : c.mem_read c.program_counter = some 0 := by
    unfold CPU.mem_read MEM_SIZE
    rw [if_pos (by omega), h0]
  have hp1 : (c.program_counter + 1) % 65536 = c.program_counter + 1 :=
    Nat.mod_eq_of_lt (by omega)
  simp only [MainRs.run, hr0, hp1]
  norm_num

/-- A catalog-driven run on an uncatalogued byte decode-faults at once,
whatever fuel remains. -/
theorem run_decode_fault (n : Nat) {c : CPU} {b : Nat}
    (hread : c.mem_read c.program_counter = some b)
    (hnone : OPCODES_MAP b = none) :
    CPU.run (n + 1) c = RunOutcome.decodeFault
      { c with program_counter := (c.program_counter + 1) % 65536 } b := by
  simp only [CPU.run]
  rw [step_decode_fault hread hnone]

/-- A hardcoded run on an uncatalogued byte also decode-faults at once:
such a byte is none of `0xA9`, `0xAA`, `0xE8`, `0x00`, since those four
do have catalog rows. -/
theorem mainRun_decode_fault (n : Nat) {c : CPU} {b : Nat}
    (hread : c.mem_read c.program_counter = some b)
    (hnone : OPCODES_MAP b = none) :
    MainRs.run (n + 1) c = RunOutcome.decodeFault
      { c with program_counter := (c.program_counter + 1) % 65536 } b := by
  have h1 : b ≠ 0xA9 := by rintro rfl; exact absurd hnone (by decide)
  have h2 : b ≠ 0xAA := by rintro rfl; exact absurd hnone (by decide)
  have h3 : b ≠ 0xE8 := by rintro rfl; exact absurd hnone (by decide)
  have h4 : b ≠ 0x00 := by rintro rfl; exact absurd hnone (by decide)
  simp only [MainRs.run, hread]
  rw [if_neg h1, if_neg h2, if_neg h3, if_neg h4]

/-- Byte streams on which the two loop bodies are observably identical:
a halt byte, an uncatalogued byte (both interpreters decode-fault), or a
common-subset instruction followed by another safe stream.  Covers both
well-formed subset programs and programs whose tail was overwritten by
the reset-vector bytes `0x00`/`0x80`. -/
inductive SafeStream : List Nat → Prop where
  | halt (rest : List Nat) : SafeStream (0x00 :: rest)
  | fault (b : Nat) (rest : List Nat) :
      OPCODES_MAP b = none → SafeStream (b :: rest)
  | lda (b : Nat) (rest : List Nat) :
      SafeStream rest → SafeStream (0xA9 :: b :: rest)
  | tax (rest : List Nat) : SafeStream rest → SafeStream (0xAA :: rest)
  | inx (rest : List Nat) : SafeStream rest → SafeStream (0xE8 :: rest)

/-- Every encoded common-subset program is a safe stream. -/
theorem SafeStream_encProg (instrs : List Instr) :
    SafeStream (encProg instrs) := by
  induction instrs with
  | nil =>
    rw [encProg_nil]
    exact SafeStream.halt []
  | cons i rest ih =>
    rw [encProg_cons]
    cases i with
    | ldaImm b => exact SafeStream.lda b _ ih
    | tax => exact SafeStream.tax _ ih
    | inx => exact SafeStream.inx _ ih

/-- What the reset-vector write of `load` does to a program image that
reaches up to the vector: byte `k` becomes `0x00` and byte `k + 1`
becomes `0x80` (each only if inside the list, as `List.set` is the
identity past the end). -/
def corrupt (l : List Nat) (k : Nat) : List Nat :=
  (l.set k 0).set (k + 1) 0x80

theorem corrupt_length (l : List Nat) (k : Nat) :
    (corrupt l k).length = l.length := by
  simp [corrupt]

theorem corrupt_cons_zero (a : Nat) (t : List Nat) :
    corrupt (a :: t) 0 = 0 :: t.set 0 0x80 := rfl

theorem corrupt_cons_succ (a : Nat) (t : List Nat) (j : Nat) :
    corrupt (a :: t) (j + 1) = a :: corrupt t j := by
  unfold corrupt
  rw [List.set_cons_succ, List.set_cons_succ]

/-- Reading a corrupted stream: position `k + 1` holds `0x80`, position
`k` holds `0x00`, everything else is the original byte. -/
theorem getD_corrupt (l : List Nat) (k j : Nat) (hj : j < l.length) :
    (corrupt l k).getD j 0 =
      if j = k + 1 then 0x80 else if j = k then 0 else l.getD j 0 := by
  unfold corrupt
  by_cases h1 : j = k + 1
  · subst h1
    rw [if_pos rfl]
    have hlen : k + 1 < (l.set k 0).length := by
      rw [List.length_set]
      exact hj
    simp [List.getD_eq_getElem?_getD, List.getElem?_set_self hlen]
  · rw [if_neg h1]
    by_cases h2 : j = k
    · subst h2
      rw [if_pos rfl]
      have h3 : j + 1 ≠ j := by omega
      simp [List.getD_eq_getElem?_getD, List.getElem?_set_ne h3,
        List.getElem?_set_self hj]
    · rw [if_neg h2]
      simp [List.getD_eq_getElem?_getD,
        List.getElem?_set_ne (show k + 1 ≠ j from fun hh => h1 hh.symm),
        List.getElem?_set_ne (show k ≠ j from fun hh => h2 hh.symm)]

/-- Safe streams are closed under the reset-vector corruption, at any
position: a `0x00` landing on an opcode slot halts both interpreters, a
`0x00` landing on an LDA operand is consumed as data and the following
`0x80` (no catalog row) decode-faults both. -/
theorem SafeStream_corrupt {l : List Nat} (h : SafeStream l) :
    ∀ k, SafeStream (corrupt l k) := by
  induction h with
  | halt rest =>
    intro k
    cases k with
    | zero =>
      rw [corrupt_cons_zero]
      exact SafeStream.halt _
    | succ j =>
      rw [corrupt_cons_succ]
      exact SafeStream.halt _
  | fault b rest hnone =>
    intro k
    cases k with
    | zero =>
      rw [corrupt_cons_zero]
      exact SafeStream.halt _
    | succ j =>
      rw [corrupt_cons_succ]
      exact SafeStream.fault b _ hnone
  | lda b rest hrest ih =>
    intro k
    cases k with
    | zero =>
      rw [corrupt_cons_zero]
      exact SafeStream.halt _
    | succ j =>
      rw [corrupt_cons_succ]
      cases j with
      | zero =>
        rw [corrupt_cons_zero]
        obtain ⟨x, r, rfl⟩ : ∃ x r, rest = x :: r := by
          cases hrest <;> exact ⟨_, _, rfl⟩
        rw [List.set_cons_zero]
        exact SafeStream.lda _ _ (SafeStream.fault 0x80 r (by decide))
      | succ j' =>
        rw [corrupt_cons_succ]
        exact SafeStream.lda _ _ (ih j')
  | tax rest hrest ih =>
    intro k
    cases k with
    | zero =>
      rw [corrupt_cons_zero]
      exact SafeStream.halt _
    | succ j =>
      rw [corrupt_cons_succ]
      exact SafeStream.tax _ (ih j)
  | inx rest hrest ih =>
    intro k
    cases k with
    | zero =>
      rw [corrupt_cons_zero]
      exact SafeStream.halt _
    | succ j =>
      rw [corrupt_cons_succ]
      exact SafeStream.inx _ (ih j)

/-- The two `run` loops agree, for any fuel, on every state whose
in-bounds instruction stream (from the program counter on) is a safe
stream. -/
theorem runs_agree (fuel : Nat) :
    ∀ (bs : List Nat) (c : CPU),
      SafeStream bs →
      c.program_counter + bs.length ≤ MEM_SIZE →
      (∀ j, j < bs.length → c.memory (c.program_counter + j) = bs.getD j 0) →
      CPU.run fuel c = MainRs.run fuel c := by
  induction fuel with
  | zero =>
    intro bs c _ _ _
    rfl
  | succ n ih =>
    intro bs c hsafe hlen hmem
    unfold MEM_SIZE at hlen
    cases hsafe with
    | halt rest =>
      have h0 : c.memory (c.program_counter + 0) = 0 := by
        simpa using hmem 0 (by simp)
      rw [Nat.add_zero] at h0
      have hpc : c.program_counter + 1 < 65536 := by
        simp only [List.length_cons] at hlen
        omega
      rw [run_brk n hpc h0, mainRun_brk n hpc h0]
    | fault b rest hnone =>
      have h0 : c.memory (c.program_counter + 0) = b := by
        simpa using hmem 0 (by simp)
      rw [Nat.add_zero] at h0
      have hread : c.mem_read c.program_counter = some b := by
        unfold CPU.mem_read MEM_SIZE
        rw [if_pos (by simp only [List.length_cons] at hlen; omega), h0]
      rw [run_decode_fault n hread hnone, mainRun_decode_fault n hread hnone]
    | lda b rest hrest =>
      simp only [List.length_cons] at hlen hmem
      have h0 : c.memory (c.program_counter + 0) = 0xA9 := by
        simpa using hmem 0 (by omega)
      rw [Nat.add_zero] at h0
      have h1 : c.memory (c.program_counter + 1) = b := by
        simpa using hmem 1 (by omega)
      have hpc : c.program_counter + 2 < 65536 := by omega
      rw [run_next n (step_lda_imm hpc h0 h1), mainRun_lda_imm n hpc h0 h1]
      apply ih rest _ hrest
      · show _ + rest.length ≤ MEM_SIZE
        unfold MEM_SIZE
        simp only []
        omega
      · intro j hj
        have hle := hmem (2 + j) (by omega)
        have haddr : c.program_counter + (2 + j) = c.program_counter + 2 + j := by
          omega
        rw [haddr] at hle
        have hidx2 : 2 + j = j + 1 + 1 := by omega
        rw [hidx2] at hle
        simpa using hle
    | tax rest hrest =>
      simp only [List.length_cons] at hlen hmem
      have h0 : c.memory (c.program_counter + 0) = 0xAA := by
        simpa using hmem 0 (by omega)
      rw [Nat.add_zero] at h0
      have hpc : c.program_counter + 1 < 65536 := by omega
      rw [run_next n (step_tax hpc h0), mainRun_tax n hpc h0]
      apply ih rest _ hrest
      · show _ + rest.length ≤ MEM_SIZE
        unfold MEM_SIZE
        simp only []
        omega
      · intro j hj
        have hle := hmem (1 + j) (by omega)
        have haddr : c.program_counter + (1 + j) = c.program_counter + 1 + j := by
          omega
        rw [haddr] at hle
        have hidx1 : 1 + j = j + 1 := by omega
        rw [hidx1] at hle
        simpa using hle
    | inx rest hrest =>
      simp only [List.length_cons] at hlen hmem
      have h0 : c.memory (c.program_counter + 0) = 0xE8 := by
        simpa using hmem 0 (by omega)
      rw [Nat.add_zero] at h0
      have hpc : c.program_counter + 1 < 65536 := by omega
      rw [run_next n (step_inx hpc h0), mainRun_inx n hpc h0]
      apply ih rest _ hrest
      · show _ + rest.length ≤ MEM_SIZE
        unfold MEM_SIZE
        simp only []
        omega
      · intro j hj
        have hle := hmem (1 + j) (by omega)
        have haddr : c.program_counter + (1 + j) = c.program_counter + 1 + j := by
          omega
        rw [haddr] at hle
        have hidx1 : 1 + j = j + 1 := by omega
        rw [hidx1] at hle
        simpa using hle

/-- The memory of any successfully loaded CPU, byte by byte: the two
reset-vector writes shadow everything, then the program region, then
the old memory.  (Valid for every loadable program, vector overlap
included.) -/
theorem load_memory_eq (c c' : CPU) (bytes : List Nat)
    (hlen : 0x8000 + bytes.length ≤ MEM_SIZE)
    (hload : c.load bytes = some c') :
    ∀ j, c'.memory j =
      if j = 0xFFFD then 128 else if j = 0xFFFC then 0
      else if 0x8000 ≤ j ∧ j < 0x8000 + bytes.length
      then bytes.getD (j - 0x8000) 0
      else c.memory j := by
  rw [CPU.load, if_pos hlen] at hload
  simp only [CPU.mem_write_u16, CPU.mem_write, MEM_SIZE] at hload
  norm_num at hload
  intro j
  rw [← hload]
  simp [List.getD]

/-- C10: for every program of the common subset (immediate LDA with its
operand byte, TAX, INX, terminated by `0x00`), `load_and_run` of the
catalog-driven CPU (`src/cpu.rs`) and of the hardcoded-dispatch CPU
(`src/main.rs`) take equal initial states to the very same outcome — in
particular to equal final accumulator, X, Y, status, program counter
and memory.  No length restriction: an unloadable program panics
identically in both, and a program long enough to overlap the reset
vector receives the same `0x00`/`0x80` overwrite in both, on which the
interpreters still agree. -/
theorem c10_catalog_hardcoded_equiv (instrs : List Instr) (fuel : Nat)
    (c : CPU) :
    CPU.load_and_run fuel c (encProg instrs) =
      MainRs.load_and_run fuel c (encProg instrs) := by
  unfold CPU.load_and_run MainRs.load_and_run
  by_cases hfit : 0x8000 + (encProg instrs).length ≤ MEM_SIZE
  · cases hl : c.load (encProg instrs) with
    | none => rfl
    | some c1 =>
      have hmeq := load_memory_eq c c1 (encProg instrs) hfit hl
      have hfc : c1.memory 0xFFFC = 0 := by
        rw [hmeq]
        norm_num
      have hfd : c1.memory 0xFFFD = 128 := by
        rw [hmeq]
        norm_num
      simp only [reset_spec]
      apply runs_agree fuel (corrupt (encProg instrs) 0x7FFC) _
        (SafeStream_corrupt (SafeStream_encProg instrs) 0x7FFC)
      · simp only [hfc, hfd, corrupt_length]
        unfold MEM_SIZE at hfit ⊢
        omega
      · intro j hj
        rw [corrupt_length] at hj
        simp only [hfc, hfd]
        rw [getD_corrupt _ _ _ hj,
          show (0 + 256 * 128 : Nat) + j = 0x8000 + j by norm_num, hmeq]
        by_cases hj1 : j = 0x7FFD
        · subst hj1
          norm_num
        · by_cases hj2 : j = 0x7FFC
          · subst hj2
            norm_num
          · rw [if_neg (by omega), if_neg (by omega), if_pos (by omega),
              if_neg (by omega), if_neg (by omega),
              show 0x8000 + j - 0x8000 = j by omega]
  · rw [CPU.load, if_neg hfit]

/-- Witness for `c10_catalog_hardcoded_equiv`: both CPUs agree on the
three-byte program `LDA #5; BRK`. -/
theorem c10_catalog_hardcoded_equiv_witness :
    CPU.load_and_run 2 CPU.new (encProg [Instr.ldaImm 5]) =
      MainRs.load_and_run 2 CPU.new (encProg [Instr.ldaImm 5]) :=
  c10_catalog_hardcoded_equiv [Instr.ldaImm 5] 2 CPU.new
